import Mathlib

/-!
Verification of the fediverse-radar identifier-mapping and batch-verification
engine. JavaScript strings are modelled as `List Char`; the HTTP environment
is modelled explicitly (an `HttpOutcome` per request, a page list for
pagination, an oracle for the Mastodon search probe). All definitions are
translated from the JavaScript sources (src/mastoToBsky.js, src/bskyToMasto.js,
src/unnamed/part_004); source file and line references are given next to each
definition.
-/

/-! JavaScript string primitives -/

/-- Character-level action of the JS regex replace in
src/mastoToBsky.js line 15: `address.replace(/[_~]/g, '-')` rewrites every
underscore and every tilde to a dash and leaves all other characters
(dots included) unchanged. -/
def dashForUnderscoreTilde (c : Char) : Char :=
  if c = '_' ∨ c = '~' then '-' else c

/-- JS `address.replace(/[_~]/g, '-')` (global flag: every occurrence). -/
def replaceUnderscoreTilde (s : List Char) : List Char :=
  s.map dashForUnderscoreTilde

/-- Accumulator worker for `jsSplit`: the accumulator holds the current
segment reversed. -/
def jsSplitAux (sep : Char) : List Char → List Char → List (List Char)
  | [], acc => [acc.reverse]
  | c :: rest, acc =>
    if c = sep then acc.reverse :: jsSplitAux sep rest []
    else jsSplitAux sep rest (c :: acc)

/-- JS `String.prototype.split` with a single-character separator: the list of
maximal separator-free segments, empty segments included. -/
def jsSplit (sep : Char) (s : List Char) : List (List Char) :=
  jsSplitAux sep s []

/-- JS array indexing past the end yields `undefined`, and interpolating
`undefined` into a template literal renders the text `undefined`. -/
def jsIndexOrUndefined (parts : List (List Char)) (i : Nat) : List Char :=
  parts.getD i "undefined".toList

/-- JS `String.prototype.replace` with a plain one-character pattern replaces
only the first occurrence (used as `accountAddress.replace('@', '')` and
`newAddress.replace('@', '')` in src/mastoToBsky.js lines 27 and 184). -/
def jsReplaceFirst (target : Char) (replacement : List Char) : List Char → List Char
  | [] => []
  | c :: rest =>
    if c = target then replacement ++ rest
    else c :: jsReplaceFirst target replacement rest

/-- JS `String.prototype.trim` restricted to ASCII whitespace, which is all
the inputs of this program use. -/
def jsTrim (s : List Char) : List Char :=
  ((s.dropWhile Char.isWhitespace).reverse.dropWhile Char.isWhitespace).reverse

/-! Identifier codec (src/mastoToBsky.js lines 14-18) -/

/-- Translation of `convertAddressFormat` (src/mastoToBsky.js lines 14-18):
replace `_` and `~` by `-`, split on `@` into `[username, instance]`, and
produce the template string `username.instance.ap.brid.gy`. -/
def convertAddressFormat (address : List Char) : List Char :=
  let formattedAddress := replaceUnderscoreTilde address
  let parts := jsSplit '@' formattedAddress
  jsIndexOrUndefined parts 0 ++ '.' :: (jsIndexOrUndefined parts 1 ++ ".ap.brid.gy".toList)

/-! Exclusion filter (src/mastoToBsky.js lines 21-23) -/

/-- Translation of `excludeDomain` (src/mastoToBsky.js lines 21-23): the
address is excluded exactly when it ends with one of the three denylisted
suffixes. -/
def excludeDomain (address : List Char) : Bool :=
  "@bsky.brid.gy".toList.isSuffixOf address ||
    "@threads.net".toList.isSuffixOf address ||
    "@bird.makeup".toList.isSuffixOf address

/-! HTTP environment model -/

/-- Outcome of one HTTP request as seen by the axios client: either the
server answered with some status code, or the request failed at the network
level with an error message. -/
inductive HttpOutcome where
  | response (status : Nat)
  | networkError (message : List Char)
deriving DecidableEq

/-- Behaviour of `axios.get` with the default `validateStatus`: the promise
resolves for a 2xx status and rejects otherwise; a network failure also
rejects. The rejection carries an error message
(`error.message`). -/
def axiosGet : HttpOutcome → Except (List Char) Nat
  | .response status =>
    if 200 ≤ status ∧ status < 300 then .ok status
    else .error ("Request failed with status code ".toList ++ (toString status).toList)
  | .networkError message => .error message

/-- Behaviour of `axios.get` with `validateStatus: null` (src/mastoToBsky.js
line 191): every HTTP status resolves; only a network failure rejects. -/
def axiosGetAnyStatus : HttpOutcome → Except (List Char) Nat
  | .response status => .ok status
  | .networkError message => .error message

/-! Bluesky existence prober (src/mastoToBsky.js lines 26-36) -/

/-- Shape of the value returned by `checkAccountExists`: an exists flag, the
`@`-stripped address, and the optional error detail. -/
structure ExistenceResult where
  exists_ : Bool
  address : List Char
  error : Option (List Char)
deriving DecidableEq

/-- Translation of `checkAccountExists` (src/mastoToBsky.js lines 26-36):
strip the first `@`, issue the profile lookup, report exists exactly on
status 200, and on a rejected promise report exists false with the error
message. The try/catch makes the function total: it never throws. -/
def checkAccountExists (accountAddress : List Char) (httpOutcome : HttpOutcome) :
    ExistenceResult :=
  let formattedAddress := jsReplaceFirst '@' [] accountAddress
  match axiosGet httpOutcome with
  | .ok status => { exists_ := status == 200, address := formattedAddress, error := none }
  | .error message => { exists_ := false, address := formattedAddress, error := some message }

/-! Main CSV pipeline of src/mastoToBsky.js (lines 179-246) -/

/-- HTTP environment for the request enqueued for one CSV row: the outcome of
the `getProfile` lookup and the outcome of the direct profile-page fetch. -/
structure EntryEnv where
  profileLookup : HttpOutcome
  profilePage : HttpOutcome
deriving DecidableEq

/-- Row of the result set (and of output.csv / output.html): the stripped
account address and the profile URL. -/
structure OutputRow where
  accountAddress : List Char
  profileUrl : List Char
deriving DecidableEq

/-- Profile URL built for a converted address (src/mastoToBsky.js line 184). -/
def profileUrlFor (newAddress : List Char) : List Char :=
  "https://bsky.app/profile/".toList ++ jsReplaceFirst '@' [] newAddress

/-- Body of the closure pushed onto `requestQueue` for one non-excluded CSV
row (src/mastoToBsky.js lines 186-200): probe the converted address, and on
success fetch the profile page and push a result row exactly when that page
answers 200; page fetch errors are swallowed. -/
def queuedRequest (env : EntryEnv) (address : List Char) : Option OutputRow :=
  let newAddress := convertAddressFormat address
  let result := checkAccountExists newAddress env.profileLookup
  if result.exists_ then
    match axiosGetAnyStatus env.profilePage with
    | .ok status =>
      if status == 200 then
        some { accountAddress := result.address, profileUrl := profileUrlFor newAddress }
      else none
    | .error _ => none
  else none

/-- Addresses for which the csv data handler enqueues a probe
(src/mastoToBsky.js lines 182-202): exactly the rows whose account address is
not excluded. -/
def queuedAddresses (rows : List (List Char)) : List (List Char) :=
  rows.filter (fun address => !excludeDomain address)

/-- Result set accumulated once `processRequestQueue` has drained the queue:
the queue is built row by row in CSV order and drained in FIFO order, so the
results are the successful probes of the non-excluded rows in order. -/
def mainResults (env : List Char → EntryEnv) (rows : List (List Char)) : List OutputRow :=
  (queuedAddresses rows).filterMap (fun address => queuedRequest (env address) address)

/-! Queue processor (src/mastoToBsky.js lines 235-246) -/

/-- State of the `processRequestQueue` loop. Because JavaScript is
single-threaded and the loop awaits `request()` to completion, the
increment/decrement pair around the await nets to no change of
`requestsInProgress`; the value in force while a request runs is recorded in
`startedTrace` (request, in-flight count), and `sleeps` counts executions of
the `sleep(100)` branch. -/
structure QueueState (Req : Type) where
  requestQueue : List Req
  requestsInProgress : Nat
  startedTrace : List (Req × Nat)
  sleeps : Nat
deriving DecidableEq

/-- Translation of `processRequestQueue` (src/mastoToBsky.js lines 235-246):
while the queue is nonempty, if fewer than 10 requests are in progress, shift
the head of the queue and run it to completion, else sleep 100 ms; iteration
is bounded by explicit fuel. -/
def processRequestQueue {Req : Type} : Nat → QueueState Req → QueueState Req
  | 0, s => s
  | fuel + 1, s =>
    match s.requestQueue with
    | [] => s
    | request :: rest =>
      if s.requestsInProgress < 10 then
        processRequestQueue fuel
          { requestQueue := rest
            requestsInProgress := s.requestsInProgress
            startedTrace := s.startedTrace ++ [(request, s.requestsInProgress + 1)]
            sleeps := s.sleeps }
      else
        processRequestQueue fuel { s with sleeps := s.sleeps + 1 }

/-- State at the single call site: the queue just filled by the csv handler,
`requestsInProgress` still 0, nothing started yet. -/
def initialQueueState {Req : Type} (queue : List Req) : QueueState Req :=
  { requestQueue := queue, requestsInProgress := 0, startedTrace := [], sleeps := 0 }

/-! Mastodon batch-check loop (src/unnamed/part_004 lines 303-353) -/

/-- Outcome of one `checkMastodonAccount` call (src/unnamed/part_004 lines
61-75): the search either finds accounts, finds none, or is answered with
HTTP 429. The returned object never carries an `error` property, so the
`errors` list of the loop stays empty and is not modelled. -/
inductive MastoProbeResult where
  | found
  | notFound
  | rateLimited
deriving DecidableEq

/-- Exists flag of the probe result object. -/
def MastoProbeResult.exists_ : MastoProbeResult → Bool
  | .found => true
  | _ => false

/-- RateLimited flag of the probe result object (truthy only for HTTP 429). -/
def MastoProbeResult.isRateLimited : MastoProbeResult → Bool
  | .rateLimited => true
  | _ => false

/-- State of the batch loop of src/unnamed/part_004 lines 303-353. `attempt`
counts the HTTP probes issued so far (it indexes the probe oracle);
`csvRows` holds the (handle, link) pairs passed to `appendToCSV`;
`probedLog` records, for every `checkMastodonAccount` call, the handle and
the instance argument passed to it. -/
structure BatchState where
  i : Nat
  checkCount : Nat
  instanceIndex : Nat
  attempt : Nat
  csvRows : List (List Char × List Char)
  probedLog : List (List Char × List Char)
deriving DecidableEq

/-- State right after `initializeCSV()` (src/unnamed/part_004 lines 304-308). -/
def initialBatchState : BatchState :=
  { i := 0, checkCount := 0, instanceIndex := 0, attempt := 0, csvRows := [], probedLog := [] }

/-- One iteration of the batch loop body (src/unnamed/part_004 lines
310-353): rotate the instance counter after 299 cumulative checks, probe the
trimmed current handle on `mastodonInstanceInput`, and then either requeue
the same index on a rate limit (the `i--; continue;` pair) or append a CSV
row on success and advance. -/
def batchStep (filteredHandles : List (List Char))
    (mastodonInstanceInput outputInstance : List Char)
    (probe : Nat → MastoProbeResult) (s : BatchState) : BatchState :=
  let handle := jsTrim (filteredHandles.getD s.i [])
  let s1 :=
    if 299 ≤ s.checkCount then
      { s with instanceIndex := s.instanceIndex + 1, checkCount := 0 }
    else s
  let result := probe s1.attempt
  let s2 := { s1 with
    attempt := s1.attempt + 1
    probedLog := s1.probedLog ++ [(handle, mastodonInstanceInput)] }
  if result.isRateLimited then
    { s2 with instanceIndex := s2.instanceIndex + 1, checkCount := 0 }
  else
    let s3 :=
      if result.exists_ then
        { s2 with csvRows := s2.csvRows ++
          [('@' :: (handle ++ "@bsky.brid.gy".toList),
            "https://".toList ++ outputInstance ++
              ('/' :: '@' :: (handle ++ "@bsky.brid.gy".toList)))] }
      else s2
    { s3 with checkCount := s3.checkCount + 1, i := s3.i + 1 }

/-- The batch loop itself, with explicit fuel: iterate the body while
`i < filteredHandles.length`. -/
def runBatchLoop (filteredHandles : List (List Char))
    (mastodonInstanceInput outputInstance : List Char)
    (probe : Nat → MastoProbeResult) : Nat → BatchState → BatchState
  | 0, s => s
  | fuel + 1, s =>
    if s.i < filteredHandles.length then
      runBatchLoop filteredHandles mastodonInstanceInput outputInstance probe fuel
        (batchStep filteredHandles mastodonInstanceInput outputInstance probe s)
    else s

/-! Follow-set resolver pagination (src/bskyToMasto.js lines 332-361) -/

/-- Outcome of one pagination request as the code observes it: a network
error (the axios promise rejected), or a response whose data may or may not
carry a follows array (`none` models a missing or non-array `follows`
field) and may or may not carry a continuation cursor. Each follow record is
reduced to its optional `handle` field. -/
inductive PageOutcome where
  | netError (message : List Char)
  | ok (follows : Option (List (Option (List Char)))) (cursor : Option (List Char))
deriving DecidableEq

/-- JS truthiness of `follow.handle`: undefined and the empty string are
falsy. -/
def jsTruthyStr : Option (List Char) → Bool
  | none => false
  | some s => !s.isEmpty

/-- JS condition `maxEntries && totalFetched >= maxEntries`: a missing cap
and the number 0 are both falsy, so they disable the cap. -/
def capReached (maxEntries : Option Nat) (totalFetched : Nat) : Bool :=
  match maxEntries with
  | none => false
  | some m => (m != 0) && decide (m ≤ totalFetched)

/-- Inner for-loop of `fetchUserFollowsHandles` over one page's follows
(src/bskyToMasto.js lines 341-345): push each truthy handle, count every
follow, and break as soon as the cap test fires. Returns the handles pushed
on this page, the updated `totalFetched`, and whether the loop broke. -/
def processFollows (maxEntries : Option Nat) :
    List (Option (List Char)) → Nat → List (List Char) × Nat × Bool
  | [], totalFetched => ([], totalFetched, false)
  | follow :: rest, totalFetched =>
    let pushed : List (List Char) :=
      match follow with
      | some h => if h.isEmpty then [] else [h]
      | none => []
    let t := totalFetched + 1
    if capReached maxEntries t then (pushed, t, true)
    else
      let r := processFollows maxEntries rest t
      (pushed ++ r.1, r.2.1, r.2.2)

/-- Translation of `fetchUserFollowsHandles` (src/bskyToMasto.js lines
332-361): consume the responses page by page (strictly sequentially, each
request issued only after the previous response arrived); a network error or
a response without a follows array stops the loop, returning what was
gathered so far; after processing a page the cap test and then the presence
of a cursor decide whether another page is requested. The page list is the
HTTP environment; an exhausted page list simply ends the run. -/
def fetchUserFollowsHandles (maxEntries : Option Nat) :
    List PageOutcome → Nat → List (List Char)
  | [], _ => []
  | page :: restPages, totalFetched =>
    match page with
    | .netError _ => []
    | .ok none _ => []
    | .ok (some follows) cursor =>
      let r := processFollows maxEntries follows totalFetched
      if capReached maxEntries r.2.1 then r.1
      else
        match cursor with
        | some _ => r.1 ++ fetchUserFollowsHandles maxEntries restPages r.2.1
        | none => r.1

/-! Case normalization and the bridge following set
(src/unnamed/part_004 lines 1115-1157 and 1201-1208) -/

/-- JS `toLowerCase` on one character, restricted to ASCII (Bluesky handles
and Mastodon addresses are ASCII): uppercase A-Z maps 32 code points up,
everything else is unchanged. -/
def jsToLowerChar (c : Char) : Char :=
  if 65 ≤ c.toNat ∧ c.toNat ≤ 90 then Char.ofNat (c.toNat + 32) else c

/-- JS `toUpperCase` on one character, restricted to ASCII. -/
def jsToUpperChar (c : Char) : Char :=
  if 97 ≤ c.toNat ∧ c.toNat ≤ 122 then Char.ofNat (c.toNat - 32) else c

/-- JS `String.prototype.toLowerCase` (ASCII fragment). -/
def jsToLowerCase (s : List Char) : List Char :=
  s.map jsToLowerChar

/-- One character is a letter-case variant of another: it is the same
character, or its uppercase form, or its lowercase form. -/
def caseVariantChar (a b : Char) : Bool :=
  b == a || b == jsToUpperChar a || b == jsToLowerChar a

/-- One string is obtained from another by changing the letter case of some
of its characters. -/
def caseVariant : List Char → List Char → Bool
  | [], [] => true
  | a :: s, b :: t => caseVariantChar a b && caseVariant s t
  | _, _ => false

/-- JS `new Set(list)` keeps one copy of each distinct element; only
membership and size are used, so the set is modelled by deduplication. -/
def jsSetOfList (l : List (List Char)) : List (List Char) :=
  l.dedup

/-- Translation of the value returned by `fetchBridgeFollowingHandles`
(src/unnamed/part_004 line 1156): `new Set(handles.map(h.toLowerCase))`,
where `handles` collects the handle of every follow record fetched; the
pagination environment is abstracted to that list of fetched handles. -/
def fetchBridgeFollowingHandles (fetchedHandles : List (List Char)) : List (List Char) :=
  jsSetOfList (fetchedHandles.map jsToLowerCase)

/-- Translation of the membership lookup in the main check loop
(src/unnamed/part_004 line 1205): `bridgeFollowingSet.has(handle.toLowerCase())`. -/
def bridgeFollowingSetHas (bridgeFollowingSet : List (List Char)) (handle : List Char) :
    Bool :=
  bridgeFollowingSet.contains (jsToLowerCase handle)

/-! Coverage summary (src/bskyToMasto.js lines 244-297, identical in
src/unnamed/part_004 lines 982-1036) -/

/-- Translation of `readHandlesFromFile` (src/bskyToMasto.js lines 122-130):
split the file on newlines, trim every line, and drop the empty ones. -/
def readHandlesFromFile (fileContent : List Char) : List (List Char) :=
  ((jsSplit '\n' fileContent).map jsTrim).filter (fun h => decide (0 < h.length))

/-- Literal tail the bridged-row regex expects right after the captured
group: the at sign, the bridge domain, and the closing double quote. -/
def bridgedPatternTail : List Char := "@bsky.brid.gy\"".toList

/-- Match of the regex at one fixed start position: a double quote, an at
sign, a nonempty run of non-at characters (the greedy group, which must stop
at the next at sign), then the literal tail. -/
def matchGroupAt : List Char → Option (List Char)
  | '"' :: '@' :: rest =>
    let grp := rest.takeWhile (fun c => decide (c ≠ '@'))
    let tail := rest.drop grp.length
    if grp.isEmpty then none
    else if bridgedPatternTail.isPrefixOf tail then some grp else none
  | _ => none

/-- First match of the regex anywhere in the line, as
`line.match` finds it: try every start position from the left. -/
def findBridgedMatch : List Char → Option (List Char)
  | [] => none
  | c :: rest =>
    match matchGroupAt (c :: rest) with
    | some grp => some grp
    | none => findBridgedMatch rest

/-- Bridged handles parsed out of AccountHandles.csv (src/bskyToMasto.js
lines 250-259): trim the file, split on newlines, skip the header, extract
the regex group of each matching line lowercased; the trailing
`filter(Boolean)` drops the non-matching lines (the captured group is
nonempty, so its lowercase form is never falsy). -/
def bridgedHandlesOfCsv (csvContent : List Char) : List (List Char) :=
  ((jsSplit '\n' (jsTrim csvContent)).drop 1).filterMap
    (fun line => (findBridgedMatch line).map jsToLowerCase)

/-- Already-followed handles parsed out of the Mastodon CSV
(src/bskyToMasto.js lines 262-283), starting from the parsed Account address
column: keep addresses ending in the bridge domain, take the part before the
first at sign, strip a leading at sign, lowercase, and drop empty results
(the `filter(Boolean)`). -/
def alreadyFollowedOf (records : List (List Char)) : List (List Char) :=
  records.filterMap (fun address =>
    if "@bsky.brid.gy".toList.isSuffixOf address then
      let h0 := (jsSplit '@' address).headD []
      let h1 :=
        match h0 with
        | '@' :: t => t
        | other => other
      let h2 := jsToLowerCase h1
      if h2.isEmpty then none else some h2
    else none)

/-- Report printed by `showBridgedPercentage`: the bridged count, the total,
and the rendered percentage. -/
structure PercentageReport where
  bridgedCount : Nat
  total : Nat
  percent : String
deriving DecidableEq

/-- JS `Number.prototype.toFixed(2)` for a nonnegative rational: scale by
100, round to the nearest integer (ties up, as toFixed picks the larger
candidate), and print with two decimals. The JS double arithmetic is
modelled by exact rationals. -/
def ratToFixed2 (q : ℚ) : String :=
  let m := (⌊q * 100 + 1 / 2⌋).toNat
  toString (m / 100) ++ "." ++ (if m % 100 < 10 then "0" else "") ++ toString (m % 100)

/-- The percentage expression of src/bskyToMasto.js line 289:
`total > 0 ? ((bridgedCount / total) * 100).toFixed(2) : '0.00'`. -/
def percentString (bridgedCount total : Nat) : String :=
  if 0 < total then ratToFixed2 ((bridgedCount : ℚ) / (total : ℚ) * 100) else "0.00"

/-- Translation of `showBridgedPercentage` (src/bskyToMasto.js lines
244-297): the source handle list and its lowercased trimmed set, the union
of the bridged handles found this run with the already-followed ones,
restricted to the source set and deduplicated, and the rendered percentage
over the raw handle-list length. -/
def showBridgedPercentage (bskyHandlesContent csvContent : List Char)
    (mastoRecords : List (List Char)) : PercentageReport :=
  let bskyHandles := readHandlesFromFile bskyHandlesContent
  let bskySet := jsSetOfList (bskyHandles.map (fun h => jsToLowerCase (jsTrim h)))
  let bridgedHandles := bridgedHandlesOfCsv csvContent
  let alreadyFollowedHandles := alreadyFollowedOf mastoRecords
  let bridgedSet := jsSetOfList
    ((bridgedHandles ++ alreadyFollowedHandles).filter (fun h => bskySet.contains h))
  { bridgedCount := bridgedSet.length
    total := bskyHandles.length
    percent := percentString bridgedSet.length bskyHandles.length }

/-! Helper lemmas about splitting -/

theorem jsSplitAux_append_sep (sep : Char) (u : List Char) :
    ∀ (v acc : List Char), sep ∉ u →
      jsSplitAux sep (u ++ sep :: v) acc = (acc.reverse ++ u) :: jsSplitAux sep v [] := by
  induction u with
  | nil =>
    intro v acc _
    simp [jsSplitAux]
  | cons c rest ih =>
    intro v acc hu
    have hc : c ≠ sep := fun h => hu (by simp [h])
    have hrest : sep ∉ rest := fun h => hu (by simp [h])
    simp only [List.cons_append, jsSplitAux, if_neg (fun h => hc h), List.append_eq]
    rw [ih v (c :: acc) hrest]
    simp

theorem jsSplitAux_no_sep (sep : Char) (v : List Char) :
    ∀ acc : List Char, sep ∉ v → jsSplitAux sep v acc = [acc.reverse ++ v] := by
  induction v with
  | nil =>
    intro acc _
    simp [jsSplitAux]
  | cons c rest ih =>
    intro acc hv
    have hc : c ≠ sep := fun h => hv (by simp [h])
    have hrest : sep ∉ rest := fun h => hv (by simp [h])
    simp only [jsSplitAux, if_neg (fun h => hc h)]
    rw [ih (c :: acc) hrest]
    simp

theorem jsSplit_wellFormed (sep : Char) (u v : List Char) (hu : sep ∉ u) (hv : sep ∉ v) :
    jsSplit sep (u ++ sep :: v) = [u, v] := by
  unfold jsSplit
  rw [jsSplitAux_append_sep sep u v [] hu, jsSplitAux_no_sep sep v [] hv]
  simp

theorem mem_replaceUnderscoreTilde_ne_at {u : List Char} (hu : '@' ∉ u) :
    '@' ∉ replaceUnderscoreTilde u := by
  intro hmem
  rcases List.mem_map.mp hmem with ⟨c, hc, hcEq⟩
  unfold dashForUnderscoreTilde at hcEq
  split at hcEq
  · exact absurd hcEq (by decide)
  · exact hu (hcEq ▸ hc)

/-- The claim C1 theorem: for every well-formed `user@instance` input the
codec replaces underscore and tilde by dash in both parts, joins as
`user.instance.ap.brid.gy`, and does not touch any other character (in
particular dots in the instance survive unaltered); the spec's worked example
actually maps to `jo-hn.mastodon.social.ap.brid.gy`. -/
theorem convertAddressFormat_wellFormed (u v : List Char) (hu : '@' ∉ u) (hv : '@' ∉ v) :
    convertAddressFormat (u ++ '@' :: v) =
      replaceUnderscoreTilde u ++ '.' :: (replaceUnderscoreTilde v ++ ".ap.brid.gy".toList) ∧
    (∀ c : Char, c ≠ '_' → c ≠ '~' → dashForUnderscoreTilde c = c) ∧
    convertAddressFormat "jo_hn@mastodon.social".toList =
      "jo-hn.mastodon.social.ap.brid.gy".toList := by
  refine ⟨?_, ?_, by decide⟩
  · have hmap : replaceUnderscoreTilde (u ++ '@' :: v) =
        replaceUnderscoreTilde u ++ '@' :: replaceUnderscoreTilde v := by
      simp [replaceUnderscoreTilde, dashForUnderscoreTilde]
    have hsplit : jsSplit '@' (replaceUnderscoreTilde (u ++ '@' :: v)) =
        [replaceUnderscoreTilde u, replaceUnderscoreTilde v] := by
      rw [hmap]
      exact jsSplit_wellFormed '@' _ _ (mem_replaceUnderscoreTilde_ne_at hu)
        (mem_replaceUnderscoreTilde_ne_at hv)
    simp [convertAddressFormat, hsplit, jsIndexOrUndefined]
  · intro c h1 h2
    simp [dashForUnderscoreTilde, h1, h2]

/-- Witness for `convertAddressFormat_wellFormed` at the spec's worked
example input. -/
theorem convertAddressFormat_wellFormed_witness :
    convertAddressFormat ("jo_hn".toList ++ '@' :: "mastodon.social".toList) =
      replaceUnderscoreTilde "jo_hn".toList ++
        '.' :: (replaceUnderscoreTilde "mastodon.social".toList ++ ".ap.brid.gy".toList) :=
  (convertAddressFormat_wellFormed "jo_hn".toList "mastodon.social".toList
    (by decide) (by decide)).1

/-- Counterexample for claim C1 as stated: the spec's worked example output
`jo-hn.mastodon-social.ap.brid.gy` is not what the code produces, because the
codec never rewrites the dots of the instance. -/
theorem convertAddressFormat_spec_example_false :
    convertAddressFormat "jo_hn@mastodon.social".toList ≠
      "jo-hn.mastodon-social.ap.brid.gy".toList := by
  decide

/-- The claim C2 theorem: the exclusion filter accepts exactly the addresses
ending in one of the three denylisted suffixes, with the spec's four worked
examples; an excluded address is never enqueued for a probe, and every row of
the result set (hence of output.csv and output.html) stems from a
non-excluded input row. -/
theorem excludeDomain_spec :
    (∀ a : List Char, excludeDomain a = true ↔
      ("@bsky.brid.gy".toList <:+ a ∨ "@threads.net".toList <:+ a ∨
        "@bird.makeup".toList <:+ a)) ∧
    excludeDomain "alice@bsky.brid.gy".toList = true ∧
    excludeDomain "bob@threads.net".toList = true ∧
    excludeDomain "carol@bird.makeup".toList = true ∧
    excludeDomain "dave@mastodon.social".toList = false ∧
    (∀ (rows : List (List Char)) (a : List Char),
      excludeDomain a = true → a ∉ queuedAddresses rows) ∧
    (∀ (env : List Char → EntryEnv) (rows : List (List Char)) (r : OutputRow),
      r ∈ mainResults env rows →
        ∃ a, a ∈ rows ∧ excludeDomain a = false ∧ queuedRequest (env a) a = some r) := by
  refine ⟨?_, by decide, by decide, by decide, by decide, ?_, ?_⟩
  · intro a
    simp [excludeDomain, List.isSuffixOf_iff_suffix, or_assoc]
  · intro rows a ha hmem
    rcases List.mem_filter.mp hmem with ⟨_, hp⟩
    simp [ha] at hp
  · intro env rows r hr
    rcases List.mem_filterMap.mp hr with ⟨a, hmem, heq⟩
    rcases List.mem_filter.mp hmem with ⟨hrow, hp⟩
    refine ⟨a, hrow, ?_, heq⟩
    cases h : excludeDomain a
    · rfl
    · simp [h] at hp

/-- Witness for `excludeDomain_spec` at a concrete excluded address. -/
theorem excludeDomain_spec_witness :
    excludeDomain "eve@threads.net".toList = true :=
  (excludeDomain_spec.1 "eve@threads.net".toList).mpr (Or.inr (Or.inl (by decide)))

/-- Counterexample for claim C3 as stated: a 2xx status other than 200 (here
204) resolves the axios promise, so the catch block is never entered; the
probe reports exists false but carries no error message in its detail field,
contradicting the claim that every non-200 outcome comes with the error
message in detail. -/
theorem checkAccountExists_claim_false_at_204 :
    (checkAccountExists "user.example.ap.brid.gy".toList (.response 204)).exists_ = false ∧
    (checkAccountExists "user.example.ap.brid.gy".toList (.response 204)).error = none := by
  decide

/-- The claim C3 theorem, amended: exists is reported exactly on HTTP 200;
the address field is the input with its first at sign removed; every non-2xx
status and every network error yields exists false with the error message in
the detail field; a 2xx status other than 200 yields exists false with no
detail. The function itself is total (the try/catch never lets an exception
escape). -/
theorem checkAccountExists_characterization (accountAddress : List Char) (o : HttpOutcome) :
    ((checkAccountExists accountAddress o).exists_ = true ↔ o = .response 200) ∧
    (checkAccountExists accountAddress o).address = jsReplaceFirst '@' [] accountAddress ∧
    (∀ status, o = .response status → ¬(200 ≤ status ∧ status < 300) →
      (checkAccountExists accountAddress o).error =
        some ("Request failed with status code ".toList ++ (toString status).toList)) ∧
    (∀ message, o = .networkError message →
      (checkAccountExists accountAddress o).error = some message ∧
      (checkAccountExists accountAddress o).exists_ = false) ∧
    (∀ status, o = .response status → 200 ≤ status → status < 300 → status ≠ 200 →
      (checkAccountExists accountAddress o).exists_ = false ∧
      (checkAccountExists accountAddress o).error = none) := by
  refine ⟨?_, ?_, ?_, ?_, ?_⟩
  · cases o with
    | response status =>
      by_cases h : 200 ≤ status ∧ status < 300
      · simp [checkAccountExists, axiosGet, if_pos h]
      · have hne : status ≠ 200 := by
          intro he
          exact h (by omega)
        simp [checkAccountExists, axiosGet, if_neg h, hne]
    | networkError m => simp [checkAccountExists, axiosGet]
  · cases o with
    | response status =>
      by_cases h : 200 ≤ status ∧ status < 300 <;> simp [checkAccountExists, axiosGet, h]
    | networkError m => simp [checkAccountExists, axiosGet]
  · intro status hstatus hno
    subst hstatus
    simp [checkAccountExists, axiosGet, if_neg hno]
  · intro message hmsg
    subst hmsg
    simp [checkAccountExists, axiosGet]
  · intro status hstatus h1 h2 hne
    subst hstatus
    have h : 200 ≤ status ∧ status < 300 := ⟨h1, h2⟩
    simp [checkAccountExists, axiosGet, if_pos h, hne]

/-- Witness for `checkAccountExists_characterization` at a concrete network
error. -/
theorem checkAccountExists_characterization_witness :
    (checkAccountExists "a@b".toList (.networkError "boom".toList)).error =
      some "boom".toList :=
  ((checkAccountExists_characterization "a@b".toList
    (.networkError "boom".toList)).2.2.2.1 "boom".toList rfl).1

/-- Master lemma for the queue processor: starting from zero in-flight
requests, every loop iteration takes the dispatch branch, each request runs
with exactly one request in flight, requests start in queue order, and the
sleep branch is never executed. -/
theorem processRequestQueue_run {Req : Type} (fuel : Nat) :
    ∀ s : QueueState Req, s.requestsInProgress = 0 →
      processRequestQueue fuel s =
        { requestQueue := s.requestQueue.drop fuel
          requestsInProgress := 0
          startedTrace := s.startedTrace ++ (s.requestQueue.take fuel).map (fun r => (r, 1))
          sleeps := s.sleeps } := by
  induction fuel with
  | zero =>
    intro s h
    cases s
    simp_all [processRequestQueue]
  | succ fuel ih =>
    intro s h
    cases s with
    | mk queue inProgress trace sleeps =>
      cases queue with
      | nil => simp_all [processRequestQueue]
      | cons request rest =>
        simp only at h
        subst h
        simp only [processRequestQueue, if_pos (by omega : (0 : Nat) < 10)]
        rw [ih _ rfl]
        simp

/-- The claim C5 theorem: across any run of the queue processor from its
actual initial state, the number of in-flight probes recorded for every
started request stays within the concurrency limit of 10, and requests start
exactly in FIFO queue order. -/
theorem processRequestQueue_bounded_fifo {Req : Type} (queue : List Req) (fuel : Nat) :
    (processRequestQueue fuel (initialQueueState queue)).startedTrace.map Prod.fst =
      queue.take fuel ∧
    ∀ e ∈ (processRequestQueue fuel (initialQueueState queue)).startedTrace, e.2 ≤ 10 := by
  rw [processRequestQueue_run fuel (initialQueueState queue) rfl]
  constructor
  · simp [initialQueueState, Function.comp_def]
  · intro e he
    simp only [initialQueueState, List.nil_append, List.mem_map] at he
    rcases he with ⟨r, _, hre⟩
    subst hre
    omega

/-- Witness for `processRequestQueue_bounded_fifo` on a concrete three-element
queue. -/
theorem processRequestQueue_bounded_fifo_witness :
    (processRequestQueue 5 (initialQueueState [0, 1, 2])).startedTrace.map Prod.fst =
      [0, 1, 2] :=
  ((processRequestQueue_bounded_fifo [0, 1, 2] 5).1).trans (by decide)

/-- The claim C9 theorem: from the actual initial state the sleep branch is
never executed, every request runs with exactly one request in flight (so
`requestsInProgress` never exceeds 1), and the requests are executed strictly
sequentially in queue order. -/
theorem processRequestQueue_sequential {Req : Type} (queue : List Req) (fuel : Nat) :
    (processRequestQueue fuel (initialQueueState queue)).sleeps = 0 ∧
    (∀ e ∈ (processRequestQueue fuel (initialQueueState queue)).startedTrace, e.2 = 1) ∧
    (processRequestQueue fuel (initialQueueState queue)).startedTrace =
      (queue.take fuel).map (fun r => (r, 1)) := by
  rw [processRequestQueue_run fuel (initialQueueState queue) rfl]
  refine ⟨rfl, ?_, by simp [initialQueueState]⟩
  intro e he
  simp only [initialQueueState, List.nil_append, List.mem_map] at he
  rcases he with ⟨r, _, hre⟩
  subst hre
  rfl

/-- Witness for `processRequestQueue_sequential` on a concrete queue. -/
theorem processRequestQueue_sequential_witness :
    (processRequestQueue 4 (initialQueueState [7, 8])).sleeps = 0 ∧
    (processRequestQueue 4 (initialQueueState [7, 8])).startedTrace = [(7, 1), (8, 1)] :=
  ⟨(processRequestQueue_sequential [7, 8] 4).1,
    ((processRequestQueue_sequential [7, 8] 4).2.2).trans (by decide)⟩

/-- Every iteration of the batch loop body probes exactly the trimmed current
handle on `mastodonInstanceInput`, whatever the probe answers and wherever
the rotation counters stand. -/
theorem batchStep_probedLog (hs : List (List Char)) (inp out : List Char)
    (probe : Nat → MastoProbeResult) (s : BatchState) :
    (batchStep hs inp out probe s).probedLog =
      s.probedLog ++ [(jsTrim (hs.getD s.i []), inp)] := by
  by_cases h299 : 299 ≤ s.checkCount <;>
    cases hp : probe s.attempt <;>
      simp [batchStep, h299, hp, MastoProbeResult.isRateLimited, MastoProbeResult.exists_]

/-- The probe log only ever grows along the batch loop. -/
theorem runBatchLoop_probedLog_extends (hs : List (List Char)) (inp out : List Char)
    (probe : Nat → MastoProbeResult) (fuel : Nat) :
    ∀ s : BatchState, ∃ t,
      (runBatchLoop hs inp out probe fuel s).probedLog = s.probedLog ++ t := by
  induction fuel with
  | zero =>
    intro s
    exact ⟨[], by simp [runBatchLoop]⟩
  | succ fuel ih =>
    intro s
    unfold runBatchLoop
    split
    · rcases ih (batchStep hs inp out probe s) with ⟨t, ht⟩
      refine ⟨(jsTrim (hs.getD s.i []), inp) :: t, ?_⟩
      rw [ht, batchStep_probedLog]
      simp
    · exact ⟨[], by simp⟩

/-- Reading just past the end of a recorded prefix of a log. -/
theorem getD_append_cons {α : Type} (l t : List α) (e d : α) :
    (l ++ e :: t).getD l.length d = e := by
  simp [List.getD_eq_getElem?_getD, List.getElem?_append_right (Nat.le_refl l.length)]

/-- The claim C4 theorem: when the probe answers rate-limited for the current
handle, the loop body appends no CSV row, resets the per-instance check
counter to 0 (so in particular the attempt is not counted: the counter is
not incremented), and leaves the loop index unchanged; consequently, if the
run afterwards concludes (the index reaches the end of the handle list), the
very next probe recorded in the log targets the same handle again, so the
rate-limited handle is retried at least once before the run concludes. -/
theorem checkMastodonAccount_rateLimited_requeue
    (hs : List (List Char)) (inp out : List Char) (probe : Nat → MastoProbeResult)
    (s : BatchState) (fuel : Nat)
    (hi : s.i < hs.length)
    (hp : probe s.attempt = .rateLimited) :
    (batchStep hs inp out probe s).csvRows = s.csvRows ∧
    (batchStep hs inp out probe s).i = s.i ∧
    (batchStep hs inp out probe s).checkCount = 0 ∧
    (hs.length ≤ (runBatchLoop hs inp out probe fuel (batchStep hs inp out probe s)).i →
      (runBatchLoop hs inp out probe fuel (batchStep hs inp out probe s)).probedLog.getD
          (batchStep hs inp out probe s).probedLog.length ([], []) =
        (jsTrim (hs.getD s.i []), inp)) := by
  have hstep : (batchStep hs inp out probe s).csvRows = s.csvRows ∧
      (batchStep hs inp out probe s).i = s.i ∧
      (batchStep hs inp out probe s).checkCount = 0 := by
    by_cases h299 : 299 ≤ s.checkCount <;>
      simp [batchStep, h299, hp, MastoProbeResult.isRateLimited]
  refine ⟨hstep.1, hstep.2.1, hstep.2.2, ?_⟩
  intro hconc
  cases fuel with
  | zero =>
    exfalso
    simp only [runBatchLoop] at hconc
    omega
  | succ fuel =>
    have hi2 : (batchStep hs inp out probe s).i < hs.length := by omega
    conv at hconc => rw [runBatchLoop, if_pos hi2]
    conv in runBatchLoop hs inp out probe (fuel + 1) (batchStep hs inp out probe s) =>
      rw [runBatchLoop, if_pos hi2]
    rcases runBatchLoop_probedLog_extends hs inp out probe fuel
      (batchStep hs inp out probe (batchStep hs inp out probe s)) with ⟨t, ht⟩
    rw [ht, batchStep_probedLog hs inp out probe (batchStep hs inp out probe s),
      hstep.2.1, List.append_assoc, List.cons_append]
    exact getD_append_cons _ _ _ _

/-- Witness for `checkMastodonAccount_rateLimited_requeue`: one handle, a
rate limit on the first probe, and the run concluding after the retry; the
second probe targets the same handle. -/
theorem checkMastodonAccount_rateLimited_requeue_witness :
    (runBatchLoop ["alice".toList] "mastodon.social".toList "vivaldi.social".toList
        (fun n => if n == 0 then MastoProbeResult.rateLimited else MastoProbeResult.notFound) 2
        (batchStep ["alice".toList] "mastodon.social".toList "vivaldi.social".toList
          (fun n => if n == 0 then MastoProbeResult.rateLimited else MastoProbeResult.notFound)
          initialBatchState)).probedLog.getD
        (batchStep ["alice".toList] "mastodon.social".toList "vivaldi.social".toList
          (fun n => if n == 0 then MastoProbeResult.rateLimited else MastoProbeResult.notFound)
          initialBatchState).probedLog.length ([], []) =
      (jsTrim (["alice".toList].getD 0 []), "mastodon.social".toList) :=
  (checkMastodonAccount_rateLimited_requeue ["alice".toList] "mastodon.social".toList
    "vivaldi.social".toList
    (fun n => if n == 0 then MastoProbeResult.rateLimited else MastoProbeResult.notFound)
    initialBatchState 2 (by decide) (by decide)).2.2.2 (by decide)

/-- Probe-log entries keep recording the fixed check instance along the whole
loop, whatever the instance-rotation counter does. -/
theorem runBatchLoop_all_instance (hs : List (List Char)) (inp out : List Char)
    (probe : Nat → MastoProbeResult) (fuel : Nat) :
    ∀ s : BatchState, s.probedLog.all (fun e => e.2 == inp) = true →
      (runBatchLoop hs inp out probe fuel s).probedLog.all (fun e => e.2 == inp) = true := by
  induction fuel with
  | zero =>
    intro s h
    exact h
  | succ fuel ih =>
    intro s h
    unfold runBatchLoop
    split
    · apply ih
      rw [batchStep_probedLog]
      simp [h]
    · exact h

/-- The claim C10 theorem: every `checkMastodonAccount` call of a whole run
from the initial state passes exactly `mastodonInstanceInput` as the
instance argument, and each single loop iteration probes the current handle
on exactly that instance — the rotation counter `instanceIndex` is never
consulted, so rotation never changes the queried instance within a run. -/
theorem instanceIndex_never_selects_instance (hs : List (List Char)) (inp out : List Char)
    (probe : Nat → MastoProbeResult) (fuel : Nat) :
    ((runBatchLoop hs inp out probe fuel initialBatchState).probedLog.all
      (fun e => e.2 == inp)) = true ∧
    (∀ s : BatchState, (batchStep hs inp out probe s).probedLog =
      s.probedLog ++ [(jsTrim (hs.getD s.i []), inp)]) :=
  ⟨runBatchLoop_all_instance hs inp out probe fuel initialBatchState rfl,
    fun s => batchStep_probedLog hs inp out probe s⟩

/-- Bounds for the inner follows loop under a positive cap: the total only
grows, the handles pushed on a page are at most the follows counted on it,
and a total below the cap stays at or below the cap. -/
theorem processFollows_bounds (m : Nat) :
    ∀ (fs : List (Option (List Char))) (t : Nat),
      t ≤ (processFollows (some m) fs t).2.1 ∧
      (processFollows (some m) fs t).1.length ≤ (processFollows (some m) fs t).2.1 - t ∧
      (t < m → (processFollows (some m) fs t).2.1 ≤ m) := by
  intro fs
  induction fs with
  | nil =>
    intro t
    refine ⟨Nat.le_refl t, by simp [processFollows], ?_⟩
    intro h
    simp only [processFollows]
    omega
  | cons follow rest ih =>
    intro t
    rcases ih (t + 1) with ⟨ih1, ih2, ih3⟩
    by_cases hcap : capReached (some m) (t + 1) = true
    · have hpushed : (match follow with
          | some h => if h.isEmpty then ([] : List (List Char)) else [h]
          | none => []).length ≤ 1 := by
        cases follow with
        | none => simp
        | some h => by_cases hh : h.isEmpty <;> simp [hh]
      refine ⟨?_, ?_, ?_⟩ <;> simp only [processFollows, if_pos hcap]
      · omega
      · omega
      · intro hlt
        simp only [capReached, Bool.and_eq_true, decide_eq_true_eq, bne_iff_ne] at hcap
        omega
    · have hpushed : (match follow with
          | some h => if h.isEmpty then ([] : List (List Char)) else [h]
          | none => []).length ≤ 1 := by
        cases follow with
        | none => simp
        | some h => by_cases hh : h.isEmpty <;> simp [hh]
      refine ⟨?_, ?_, ?_⟩ <;> simp only [processFollows, if_neg hcap]
      · omega
      · simp only [List.length_append]
        omega
      · intro hlt
        exact ih3 (by
          simp only [capReached, Bool.and_eq_true, decide_eq_true_eq, bne_iff_ne,
            not_and_or] at hcap
          omega)

/-- Length bound of pagination under a positive cap: starting below the cap,
the run gathers at most the remaining allowance. -/
theorem fetchUserFollowsHandles_length (m : Nat) :
    ∀ (pages : List PageOutcome) (t : Nat), t < m →
      (fetchUserFollowsHandles (some m) pages t).length ≤ m - t := by
  intro pages
  induction pages with
  | nil =>
    intro t _
    simp [fetchUserFollowsHandles]
  | cons page restPages ih =>
    intro t ht
    cases page with
    | netError msg => simp [fetchUserFollowsHandles]
    | ok follows cursor =>
      cases follows with
      | none => simp [fetchUserFollowsHandles]
      | some fs =>
        rcases processFollows_bounds m fs t with ⟨h1, h2, h3⟩
        have h3m := h3 ht
        by_cases hcap : capReached (some m) (processFollows (some m) fs t).2.1 = true
        · simp only [fetchUserFollowsHandles, if_pos hcap]
          omega
        · have hlt : (processFollows (some m) fs t).2.1 < m := by
            simp only [capReached, Bool.and_eq_true, decide_eq_true_eq, bne_iff_ne,
              not_and_or] at hcap
            omega
          cases cursor with
          | none =>
            simp only [fetchUserFollowsHandles, if_neg hcap]
            omega
          | some c =>
            have hih := ih (processFollows (some m) fs t).2.1 hlt
            simp only [fetchUserFollowsHandles, if_neg hcap, List.length_append]
            omega

/-- The claim C8 theorem, amended: with a positive caller-supplied cap the
returned list holds at most `maxEntries` handles; after a network error the
remaining pages are never requested (pagination stops immediately, returning
the partial list, and the total function never throws); and a page carrying
no continuation cursor likewise ends the run with the later pages untouched,
so pages are consumed strictly sequentially until no cursor remains or the
cap is hit. -/
theorem fetchUserFollowsHandles_spec :
    (∀ (m : Nat) (pages : List PageOutcome), 1 ≤ m →
      (fetchUserFollowsHandles (some m) pages 0).length ≤ m) ∧
    (∀ (m : Option Nat) (pre : List PageOutcome) (msg : List Char)
        (rest : List PageOutcome) (t : Nat),
      fetchUserFollowsHandles m (pre ++ PageOutcome.netError msg :: rest) t =
        fetchUserFollowsHandles m (pre ++ [PageOutcome.netError msg]) t) ∧
    (∀ (m : Option Nat) (follows : Option (List (Option (List Char))))
        (rest : List PageOutcome) (t : Nat),
      fetchUserFollowsHandles m (PageOutcome.ok follows none :: rest) t =
        fetchUserFollowsHandles m [PageOutcome.ok follows none] t) := by
  refine ⟨?_, ?_, ?_⟩
  · intro m pages hm
    have := fetchUserFollowsHandles_length m pages 0 (by omega)
    omega
  · intro m pre msg rest
    induction pre with
    | nil =>
      intro t
      simp [fetchUserFollowsHandles]
    | cons page pre ih =>
      intro t
      cases page with
      | netError msg2 => simp [fetchUserFollowsHandles]
      | ok follows cursor =>
        cases follows with
        | none => simp [fetchUserFollowsHandles]
        | some fs =>
          simp only [List.cons_append, fetchUserFollowsHandles]
          by_cases hcap :
              capReached m (processFollows m fs t).2.1 = true
          · simp [hcap]
          · cases cursor with
            | none => simp [hcap]
            | some c => simp [hcap, ih]
  · intro m follows rest t
    cases follows with
    | none => simp [fetchUserFollowsHandles]
    | some fs => simp [fetchUserFollowsHandles]

/-- Witness for `fetchUserFollowsHandles_spec`: a cap of 2 on a run whose
first page already carries three follows. -/
theorem fetchUserFollowsHandles_spec_witness :
    (fetchUserFollowsHandles (some 2)
      [PageOutcome.ok (some [some "a".toList, some "b".toList, some "c".toList]) none]
      0).length ≤ 2 :=
  fetchUserFollowsHandles_spec.1 2
    [PageOutcome.ok (some [some "a".toList, some "b".toList, some "c".toList]) none]
    (by decide)

/-- Counterexample for claim C8 as stated: a caller-supplied cap of 0 is
falsy in the JS test `maxEntries && totalFetched >= maxEntries`, so the cap
is silently ignored and the run returns one handle, more than the supplied
maximum of 0. -/
theorem fetchUserFollowsHandles_zero_cap_counterexample :
    fetchUserFollowsHandles (some 0) [PageOutcome.ok (some [some "h".toList]) none] 0 =
      ["h".toList] ∧
    ¬ ((fetchUserFollowsHandles (some 0)
        [PageOutcome.ok (some [some "h".toList]) none] 0).length ≤ 0) := by
  refine ⟨by decide, ?_⟩
  decide

/-- Round trip for character codes below the surrogate range. -/
theorem charOfNat_toNat (n : Nat) (h : n < 55296) : (Char.ofNat n).toNat = n := by
  simp [Char.ofNat, Nat.isValidChar, Char.ofNatAux, Char.toNat, UInt32.ofNat', h,
    UInt32.toNat, BitVec.toNat_ofNatLt]

/-- Lowercasing collapses an uppercased character and the original to the
same character. -/
theorem jsToLowerChar_jsToUpperChar (c : Char) :
    jsToLowerChar (jsToUpperChar c) = jsToLowerChar c := by
  by_cases h : 97 ≤ c.toNat ∧ c.toNat ≤ 122
  · have h1 : (Char.ofNat (c.toNat - 32)).toNat = c.toNat - 32 :=
      charOfNat_toNat _ (by omega)
    have hcLower : ¬(65 ≤ c.toNat ∧ c.toNat ≤ 90) := by omega
    simp only [jsToUpperChar, if_pos h, jsToLowerChar, h1]
    rw [if_pos (by omega : 65 ≤ c.toNat - 32 ∧ c.toNat - 32 ≤ 90), if_neg hcLower]
    have h2 : c.toNat - 32 + 32 = c.toNat := by omega
    rw [h2, Char.ofNat_toNat]
  · simp only [jsToUpperChar, if_neg h]

/-- Lowercasing is idempotent. -/
theorem jsToLowerChar_idem (c : Char) :
    jsToLowerChar (jsToLowerChar c) = jsToLowerChar c := by
  by_cases h : 65 ≤ c.toNat ∧ c.toNat ≤ 90
  · have h1 : (Char.ofNat (c.toNat + 32)).toNat = c.toNat + 32 :=
      charOfNat_toNat _ (by omega)
    simp only [jsToLowerChar, if_pos h, h1]
    rw [if_neg (by omega : ¬(65 ≤ c.toNat + 32 ∧ c.toNat + 32 ≤ 90))]
  · simp only [jsToLowerChar, if_neg h]

/-- Case variants of a character lowercase to the same character. -/
theorem caseVariantChar_toLower {a b : Char} (h : caseVariantChar a b = true) :
    jsToLowerChar b = jsToLowerChar a := by
  simp only [caseVariantChar, Bool.or_eq_true, beq_iff_eq] at h
  rcases h with (h | h) | h
  · rw [h]
  · rw [h, jsToLowerChar_jsToUpperChar]
  · rw [h, jsToLowerChar_idem]

/-- Case variants of a string lowercase to the same string. -/
theorem caseVariant_toLower : ∀ {s t : List Char}, caseVariant s t = true →
    jsToLowerCase t = jsToLowerCase s := by
  intro s
  induction s with
  | nil =>
    intro t h
    cases t with
    | nil => rfl
    | cons b t => simp [caseVariant] at h
  | cons a s ih =>
    intro t h
    cases t with
    | nil => simp [caseVariant] at h
    | cons b t =>
      simp only [caseVariant, Bool.and_eq_true] at h
      simp only [jsToLowerCase, List.map_cons]
      rw [caseVariantChar_toLower h.1]
      have h2 := ih h.2
      simp only [jsToLowerCase] at h2
      rw [h2]

/-- Replacing every stored member by a case variant leaves the lowercased
member list unchanged. -/
theorem forall2_caseVariant_map {members members' : List (List Char)}
    (h : List.Forall₂ (fun m m' => caseVariant m m' = true) members members') :
    members'.map jsToLowerCase = members.map jsToLowerCase := by
  induction h with
  | nil => rfl
  | cons hab htail ih => simp [List.map_cons, caseVariant_toLower hab, ih]

/-- The claim C7 theorem: the bridge following set stores every handle
lowercased and every lookup key is lowercased before the membership test, so
membership is invariant under changing the letter case of the lookup key or
of any stored member; in particular a member stored as Alice.bsky.social
matches the lookup key alice.bsky.social. -/
theorem bridgeFollowing_case_insensitive :
    (∀ (members : List (List Char)) (key key' : List Char),
      caseVariant key key' = true →
        bridgeFollowingSetHas (fetchBridgeFollowingHandles members) key' =
          bridgeFollowingSetHas (fetchBridgeFollowingHandles members) key) ∧
    (∀ (members members' : List (List Char)) (key : List Char),
      List.Forall₂ (fun m m' => caseVariant m m' = true) members members' →
        bridgeFollowingSetHas (fetchBridgeFollowingHandles members') key =
          bridgeFollowingSetHas (fetchBridgeFollowingHandles members) key) ∧
    bridgeFollowingSetHas (fetchBridgeFollowingHandles ["Alice.bsky.social".toList])
      "alice.bsky.social".toList = true := by
  refine ⟨?_, ?_, by decide⟩
  · intro members key key' h
    unfold bridgeFollowingSetHas
    rw [caseVariant_toLower h]
  · intro members members' key h
    unfold bridgeFollowingSetHas fetchBridgeFollowingHandles
    rw [forall2_caseVariant_map h]

/-- Witness for `bridgeFollowing_case_insensitive`: the fully uppercased
lookup key gives the same membership answer as the lowercase one. -/
theorem bridgeFollowing_case_insensitive_witness :
    bridgeFollowingSetHas (fetchBridgeFollowingHandles ["Alice.bsky.social".toList])
      "ALICE.BSKY.SOCIAL".toList =
    bridgeFollowingSetHas (fetchBridgeFollowingHandles ["Alice.bsky.social".toList])
      "alice.bsky.social".toList :=
  bridgeFollowing_case_insensitive.1 ["Alice.bsky.social".toList]
    "alice.bsky.social".toList "ALICE.BSKY.SOCIAL".toList (by decide)

/-- Size of the deduplicated restriction of a concatenation, as a finite-set
cardinality. -/
theorem dedup_filter_contains_card (A B S : List (List Char)) :
    (jsSetOfList ((A ++ B).filter (fun h => (jsSetOfList S).contains h))).length =
      ((A.toFinset ∪ B.toFinset) ∩ S.toFinset).card := by
  unfold jsSetOfList
  rw [← List.card_toFinset]
  congr 1
  rw [List.toFinset_filter, List.toFinset_append]
  ext x
  simp [List.contains, List.elem_iff, List.mem_dedup]

/-- The claim C6 theorem: the coverage summary reports bridgedCount as the
cardinality of the set of bridged-or-already-followed handles restricted to
the (lowercased, trimmed) source handle set, total as the number of source
handles, and the percentage as (bridgedCount / total) * 100 rendered with
two decimals; for ten followed handles of which exactly three are bridged it
prints exactly 30.00, and for an empty handle list it prints 0.00. -/
theorem showBridgedPercentage_spec :
    (∀ (bskyContent csvContent : List Char) (mastoRecords : List (List Char)),
      (showBridgedPercentage bskyContent csvContent mastoRecords).bridgedCount =
        (((bridgedHandlesOfCsv csvContent).toFinset ∪
            (alreadyFollowedOf mastoRecords).toFinset) ∩
          ((readHandlesFromFile bskyContent).map
            (fun h => jsToLowerCase (jsTrim h))).toFinset).card ∧
      (showBridgedPercentage bskyContent csvContent mastoRecords).total =
        (readHandlesFromFile bskyContent).length ∧
      (showBridgedPercentage bskyContent csvContent mastoRecords).percent =
        percentString
          (showBridgedPercentage bskyContent csvContent mastoRecords).bridgedCount
          (showBridgedPercentage bskyContent csvContent mastoRecords).total) ∧
    (showBridgedPercentage
      "h1\nh2\nh3\nh4\nh5\nh6\nh7\nh8\nh9\nh10".toList
      "Handle,Link\n\"@h1@bsky.brid.gy\",\"x\"\n\"@h2@bsky.brid.gy\",\"x\"\n\"@h3@bsky.brid.gy\",\"x\"".toList
      []).bridgedCount = 3 ∧
    (showBridgedPercentage
      "h1\nh2\nh3\nh4\nh5\nh6\nh7\nh8\nh9\nh10".toList
      "Handle,Link\n\"@h1@bsky.brid.gy\",\"x\"\n\"@h2@bsky.brid.gy\",\"x\"\n\"@h3@bsky.brid.gy\",\"x\"".toList
      []).total = 10 ∧
    (showBridgedPercentage
      "h1\nh2\nh3\nh4\nh5\nh6\nh7\nh8\nh9\nh10".toList
      "Handle,Link\n\"@h1@bsky.brid.gy\",\"x\"\n\"@h2@bsky.brid.gy\",\"x\"\n\"@h3@bsky.brid.gy\",\"x\"".toList
      []).percent = "30.00" ∧
    (showBridgedPercentage [] [] []).percent = "0.00" := by
  refine ⟨?_, by decide, by decide, ?_, ?_⟩
  · intro bskyContent csvContent mastoRecords
    refine ⟨?_, rfl, rfl⟩
    exact dedup_filter_contains_card (bridgedHandlesOfCsv csvContent)
      (alreadyFollowedOf mastoRecords)
      ((readHandlesFromFile bskyContent).map (fun h => jsToLowerCase (jsTrim h)))
  · have hb : (showBridgedPercentage
        "h1\nh2\nh3\nh4\nh5\nh6\nh7\nh8\nh9\nh10".toList
        "Handle,Link\n\"@h1@bsky.brid.gy\",\"x\"\n\"@h2@bsky.brid.gy\",\"x\"\n\"@h3@bsky.brid.gy\",\"x\"".toList
        []).bridgedCount = 3 := by decide
    have ht : (showBridgedPercentage
        "h1\nh2\nh3\nh4\nh5\nh6\nh7\nh8\nh9\nh10".toList
        "Handle,Link\n\"@h1@bsky.brid.gy\",\"x\"\n\"@h2@bsky.brid.gy\",\"x\"\n\"@h3@bsky.brid.gy\",\"x\"".toList
        []).total = 10 := by decide
    have hform : (showBridgedPercentage
        "h1\nh2\nh3\nh4\nh5\nh6\nh7\nh8\nh9\nh10".toList
        "Handle,Link\n\"@h1@bsky.brid.gy\",\"x\"\n\"@h2@bsky.brid.gy\",\"x\"\n\"@h3@bsky.brid.gy\",\"x\"".toList
        []).percent = percentString (showBridgedPercentage
        "h1\nh2\nh3\nh4\nh5\nh6\nh7\nh8\nh9\nh10".toList
        "Handle,Link\n\"@h1@bsky.brid.gy\",\"x\"\n\"@h2@bsky.brid.gy\",\"x\"\n\"@h3@bsky.brid.gy\",\"x\"".toList
        []).bridgedCount (showBridgedPercentage
        "h1\nh2\nh3\nh4\nh5\nh6\nh7\nh8\nh9\nh10".toList
        "Handle,Link\n\"@h1@bsky.brid.gy\",\"x\"\n\"@h2@bsky.brid.gy\",\"x\"\n\"@h3@bsky.brid.gy\",\"x\"".toList
        []).total := rfl
    rw [hform, hb, ht]
    unfold percentString
    rw [if_pos (by norm_num : (0 : ℕ) < 10)]
    have hfloor : ⌊(((3 : ℕ) : ℚ) / ((10 : ℕ) : ℚ) * 100) * 100 + 1 / 2⌋ = (3000 : ℤ) := by
      norm_num
    unfold ratToFixed2
    rw [hfloor]
    decide
  · decide
